import Mathlib

/-!
Verification of the Bidi-Parser recursive-descent matching engine
(src/main.cpp): a shallow embedding of the grammar-node algebra
(Start, End, Char, CharRange, Plus, Asterisk, Seq, Ord) and of the
virtual method `topdown_match(context, index)`, together with proofs of
the engine's contract.

Modelling notes.
* The input `std::string_view` is a `List Char`; `size_t` offsets and
  consumed counts are `Nat` (all arithmetic in the source is additive,
  so no overflow wrapping arises on the values considered).
* The variadic templates `Seq<C0, Cs...>` and `Ord<C0, Cs...>` recurse
  as "first clause, then the tail pack", with the one-clause
  specialisation equal to the clause itself, so a binary `Seq`/`Ord`
  node embeds the template recursion exactly.
* Mutually recursive named rules (the `CLAUSE` macro plus forward class
  declarations) are embedded as a `Call` node resolved through an
  environment `env : Nat → Grammar`, one id per named rule, mirroring
  the one-shared-instance-per-rule registry.
* `Plus::topdown_match` (lines 60-70) runs one first attempt and then
  a loop that is textually identical to the loop of
  `Asterisk::topdown_match` (lines 78-86); the relation below expresses
  that shared loop once, through the `Asterisk` rules.
* The loop diverges in the source when the sub-grammar keeps matching
  zero units; the semantics is therefore an inductive big-step relation
  (a derivation exists exactly when the C++ call returns), and a
  fuel-bounded interpreter proved sound against it is used to evaluate
  concrete runs.
-/

namespace BidiParser

/-- The character type of the input, C++ `char` specialised to the
characters the program uses (Lean's `Char`, named apart so that the
`Grammar.Char` constructor below does not shadow it). -/
abbrev Ch : Type := Char

/-- The grammar-node algebra of src/main.cpp: `Start` (line 17), `End`
(line 26), `Char<C>` (line 37), `CharRange<S, T>` (line 47),
`Plus<Clause>` (line 58), `Asterisk<Clause>` (line 76), binary
`Seq` (lines 92-115, the variadic template reduced to its binary
recursion scheme) and binary `Ord` (lines 118-140, likewise), plus
`Call` for a named rule resolved through a rule environment (the
`CLAUSE`/`GRAMMAR_INSTANCE` registry). -/
inductive Grammar : Type where
  | Start : Grammar
  | End : Grammar
  | Char (c : Ch) : Grammar
  | CharRange (lo hi : Ch) : Grammar
  | Plus (a : Grammar) : Grammar
  | Asterisk (a : Grammar) : Grammar
  | Seq (a b : Grammar) : Grammar
  | Ord (a b : Grammar) : Grammar
  | Call (n : Nat) : Grammar

/-- Result of `Char<C>::topdown_match` (src/main.cpp line 40):
`context[index] == C ? some 1 : none`. The source reads
`context[index]` with no bounds check, which for `index ≥ length` is an
out-of-bounds read (undefined behavior; the spec, §9, mandates that the
access be a guaranteed non-match instead). The model returns `none`
there, the mandated behavior — which is also what the shipped binary
computes on its NUL-terminated literal input. See claim C2. -/
def charRes (c : Char) (context : List Char) (index : Nat) : Option Nat :=
  match context.get? index with
  | some x => if x = c then some 1 else none
  | none => none

/-- Result of `CharRange<S, T>::topdown_match` (src/main.cpp line 50):
`context[index] >= S && context[index] <= T ? some 1 : none`, with the
same out-of-bounds totalisation as `charRes` (see C2). -/
def charRangeRes (lo hi : Char) (context : List Char) (index : Nat) : Option Nat :=
  match context.get? index with
  | some x => if lo ≤ x ∧ x ≤ hi then some 1 else none
  | none => none

/-- Big-step semantics of `topdown_match(context, index)`:
`TopdownMatch env g s i r` holds exactly when the C++ call on node `g`
returns, with `r = none` for `std::nullopt` and `r = some k` for a
match consuming `k` units. Each rule transcribes one return path of the
source; the `Asterisk` rules unfold the accumulation loop one iteration
at a time (so a zero-consuming sub-match, which loops forever in the
source, admits no derivation), and `PlusSucc` reuses that loop for the
iterations of `Plus` after its first success, the loop bodies being
identical in the source. -/
inductive TopdownMatch (env : Nat → Grammar) :
    Grammar → List Char → Nat → Option Nat → Prop where
  | Start :
      TopdownMatch env .Start s i (if i = 0 then some 0 else none)
  | End :
      TopdownMatch env .End s i (if s.length ≤ i then some 0 else none)
  | Char :
      TopdownMatch env (.Char c) s i (charRes c s i)
  | CharRange :
      TopdownMatch env (.CharRange lo hi) s i (charRangeRes lo hi s i)
  | SeqFail :
      TopdownMatch env a s i none →
      TopdownMatch env (.Seq a b) s i none
  | SeqCont :
      TopdownMatch env a s i (some k) →
      TopdownMatch env b s (i + k) r →
      TopdownMatch env (.Seq a b) s i (r.map (fun m => k + m))
  | OrdFst :
      TopdownMatch env a s i (some k) →
      TopdownMatch env (.Ord a b) s i (some k)
  | OrdSnd :
      TopdownMatch env a s i none →
      TopdownMatch env b s i r →
      TopdownMatch env (.Ord a b) s i r
  | AsteriskDone :
      TopdownMatch env a s i none →
      TopdownMatch env (.Asterisk a) s i (some 0)
  | AsteriskStep :
      TopdownMatch env a s i (some k) →
      TopdownMatch env (.Asterisk a) s (i + k) (some t) →
      TopdownMatch env (.Asterisk a) s i (some (k + t))
  | PlusFail :
      TopdownMatch env a s i none →
      TopdownMatch env (.Plus a) s i none
  | PlusSucc :
      TopdownMatch env a s i (some k) →
      TopdownMatch env (.Asterisk a) s (i + k) (some t) →
      TopdownMatch env (.Plus a) s i (some (k + t))
  | Call :
      TopdownMatch env (env n) s i r →
      TopdownMatch env (.Call n) s i r

/-- Fuel-bounded interpreter for `topdown_match`: `none` when the fuel
runs out, `some r` for the result `r` of the C++ call. Used to evaluate
the semantics on concrete inputs; `topdown_matchN_sound` relates it to
`TopdownMatch`. -/
def topdown_matchN (env : Nat → Grammar) :
    Nat → Grammar → List Char → Nat → Option (Option Nat)
  | 0, _, _, _ => none
  | Nat.succ n, g, s, i =>
    match g with
    | .Start => some (if i = 0 then some 0 else none)
    | .End => some (if s.length ≤ i then some 0 else none)
    | .Char c => some (charRes c s i)
    | .CharRange lo hi => some (charRangeRes lo hi s i)
    | .Seq a b =>
      match topdown_matchN env n a s i with
      | none => none
      | some none => some none
      | some (some k) =>
        match topdown_matchN env n b s (i + k) with
        | none => none
        | some r2 => some (r2.map (fun m => k + m))
    | .Ord a b =>
      match topdown_matchN env n a s i with
      | none => none
      | some (some k) => some (some k)
      | some none => topdown_matchN env n b s i
    | .Asterisk a =>
      match topdown_matchN env n a s i with
      | none => none
      | some none => some (some 0)
      | some (some k) =>
        match topdown_matchN env n (.Asterisk a) s (i + k) with
        | some (some t) => some (some (k + t))
        | _ => none
    | .Plus a =>
      match topdown_matchN env n a s i with
      | none => none
      | some none => some none
      | some (some k) =>
        match topdown_matchN env n (.Asterisk a) s (i + k) with
        | some (some t) => some (some (k + t))
        | _ => none
    | .Call m => topdown_matchN env n (env m) s i

/-- `CLAUSE(Digit, CharRange<'0', '9'>)`, src/main.cpp line 159. -/
def Digit : Grammar := .CharRange '0' '9'

/-- `CLAUSE(Number, Plus<Digit>)`, src/main.cpp line 161. -/
def Number : Grammar := .Plus Digit

/-- The named rule `Additive` as a reference (registry id 0). -/
def Additive : Grammar := .Call 0

/-- The named rule `Multicative` as a reference (registry id 1). -/
def Multicative : Grammar := .Call 1

/-- The named rule `Primary` as a reference (registry id 2). -/
def Primary : Grammar := .Call 2

/-- Body of `CLAUSE(Additive, Ord<Seq<Multicative, Char<'+'>, Additive>,
Multicative>)`, src/main.cpp line 163, the ternary `Seq` unfolded to its
right-nested binary recursion. -/
def AdditiveBody : Grammar :=
  .Ord (.Seq Multicative (.Seq (.Char '+') Additive)) Multicative

/-- Body of `CLAUSE(Multicative, Ord<Seq<Primary, Char<'*'>,
Multicative>, Primary>)`, src/main.cpp line 165. -/
def MulticativeBody : Grammar :=
  .Ord (.Seq Primary (.Seq (.Char '*') Multicative)) Primary

/-- Body of `CLAUSE(Primary, Ord<Seq<Char<'('>, Additive, Char<')'>>,
Number>)`, src/main.cpp line 167. -/
def PrimaryBody : Grammar :=
  .Ord (.Seq (.Char '(') (.Seq Additive (.Char ')'))) Number

/-- `CLAUSE(Toplevel, Seq<Start, Additive, End>)`, src/main.cpp
line 169. -/
def Toplevel : Grammar := .Seq .Start (.Seq Additive .End)

/-- The rule registry of the demonstration grammar: ids 0, 1, 2 are
`Additive`, `Multicative`, `Primary`; other ids are unused (mapped to an
arbitrary node). -/
def demoEnv : Nat → Grammar
  | 0 => AdditiveBody
  | 1 => MulticativeBody
  | 2 => PrimaryBody
  | _ => .Start

/-- The input of the demonstration `main` (src/main.cpp line 186):
`"(1+1)+1*(5+5)"`, 13 characters. -/
def demoInput : List Char :=
  ['(', '1', '+', '1', ')', '+', '1', '*', '(', '5', '+', '5', ')']

/-- A successful `Char` match only happens on an in-bounds index and
consumes exactly one unit. -/
theorem charRes_eq_some {c : Ch} {s : List Char} {i k : Nat}
    (h : charRes c s i = some k) : i < s.length ∧ k = 1 := by
  unfold charRes at h
  cases hg : s.get? i with
  | none => simp only [hg] at h; cases h
  | some x =>
      simp only [hg] at h
      by_cases hx : x = c
      · rw [if_pos hx] at h
        cases h
        obtain ⟨hlt, -⟩ := List.get?_eq_some.mp hg
        exact ⟨hlt, rfl⟩
      · rw [if_neg hx] at h
        cases h

/-- A successful `CharRange` match only happens on an in-bounds index
and consumes exactly one unit. -/
theorem charRangeRes_eq_some {lo hi : Ch} {s : List Char} {i k : Nat}
    (h : charRangeRes lo hi s i = some k) : i < s.length ∧ k = 1 := by
  unfold charRangeRes at h
  cases hg : s.get? i with
  | none => simp only [hg] at h; cases h
  | some x =>
      simp only [hg] at h
      by_cases hx : lo ≤ x ∧ x ≤ hi
      · rw [if_pos hx] at h
        cases h
        obtain ⟨hlt, -⟩ := List.get?_eq_some.mp hg
        exact ⟨hlt, rfl⟩
      · rw [if_neg hx] at h
        cases h

/-- `topdown_match` is deterministic: the relation is the graph of the
(partial) C++ computation. -/
theorem topdownMatch_det {env : Nat → Grammar} {g : Grammar}
    {s : List Char} {i : Nat} {r : Option Nat}
    (h : TopdownMatch env g s i r) :
    ∀ {r' : Option Nat}, TopdownMatch env g s i r' → r = r' := by
  induction h with
  | Start => intro r' h'; cases h'; rfl
  | End => intro r' h'; cases h'; rfl
  | Char => intro r' h'; cases h'; rfl
  | CharRange => intro r' h'; cases h'; rfl
  | SeqFail h1 ih1 =>
      intro r' h'
      cases h' with
      | SeqFail h1' => rfl
      | SeqCont h1' h2' => cases ih1 h1'
  | SeqCont h1 h2 ih1 ih2 =>
      intro r' h'
      cases h' with
      | SeqFail h1' => cases ih1 h1'
      | SeqCont h1' h2' =>
          cases ih1 h1'
          cases ih2 h2'
          rfl
  | OrdFst h1 ih1 =>
      intro r' h'
      cases h' with
      | OrdFst h1' => exact ih1 h1'
      | OrdSnd h1' h2' => cases ih1 h1'
  | OrdSnd h1 h2 ih1 ih2 =>
      intro r' h'
      cases h' with
      | OrdFst h1' => cases ih1 h1'
      | OrdSnd h1' h2' => exact ih2 h2'
  | AsteriskDone h1 ih1 =>
      intro r' h'
      cases h' with
      | AsteriskDone h1' => rfl
      | AsteriskStep h1' h2' => cases ih1 h1'
  | AsteriskStep h1 h2 ih1 ih2 =>
      intro r' h'
      cases h' with
      | AsteriskDone h1' => cases ih1 h1'
      | AsteriskStep h1' h2' =>
          cases ih1 h1'
          cases ih2 h2'
          rfl
  | PlusFail h1 ih1 =>
      intro r' h'
      cases h' with
      | PlusFail h1' => rfl
      | PlusSucc h1' h2' => cases ih1 h1'
  | PlusSucc h1 h2 ih1 ih2 =>
      intro r' h'
      cases h' with
      | PlusFail h1' => cases ih1 h1'
      | PlusSucc h1' h2' =>
          cases ih1 h1'
          cases ih2 h2'
          rfl
  | Call h1 ih1 =>
      intro r' h'
      cases h' with
      | Call h1' => exact ih1 h1'

/-- `Asterisk` (the line-85 `return make_optional(count)`) only ever
returns a value, never `nullopt`. -/
theorem asterisk_result_some {env : Nat → Grammar} {a : Grammar}
    {s : List Char} {i : Nat} {r : Option Nat}
    (h : TopdownMatch env (.Asterisk a) s i r) : ∃ k, r = some k := by
  cases h with
  | AsteriskDone h1 => exact ⟨0, rfl⟩
  | AsteriskStep h1 h2 => exact ⟨_, rfl⟩

/-- The fuel-bounded interpreter computes the big-step semantics:
whenever it returns a result (rather than running out of fuel), that
result is related by `TopdownMatch`. -/
theorem topdown_matchN_sound {env : Nat → Grammar} :
    ∀ (n : Nat) {g : Grammar} {s : List Char} {i : Nat} {r : Option Nat},
      topdown_matchN env n g s i = some r → TopdownMatch env g s i r := by
  intro n
  induction n with
  | zero => intro g s i r h; cases h
  | succ n ih =>
      intro g s i r h
      cases g with
      | Start =>
          simp only [topdown_matchN] at h
          cases h
          exact .Start
      | End =>
          simp only [topdown_matchN] at h
          cases h
          exact .End
      | Char c =>
          simp only [topdown_matchN] at h
          cases h
          exact .Char
      | CharRange lo hi =>
          simp only [topdown_matchN] at h
          cases h
          exact .CharRange
      | Seq a b =>
          simp only [topdown_matchN] at h
          cases ha : topdown_matchN env n a s i with
          | none => simp only [ha] at h; cases h
          | some r1 =>
              simp only [ha] at h
              cases r1 with
              | none =>
                  cases h
                  exact .SeqFail (ih ha)
              | some k =>
                  cases hb : topdown_matchN env n b s (i + k) with
                  | none => simp only [hb] at h; cases h
                  | some r2 =>
                      simp only [hb] at h
                      cases h
                      exact .SeqCont (ih ha) (ih hb)
      | Ord a b =>
          simp only [topdown_matchN] at h
          cases ha : topdown_matchN env n a s i with
          | none => simp only [ha] at h; cases h
          | some r1 =>
              simp only [ha] at h
              cases r1 with
              | none => exact .OrdSnd (ih ha) (ih h)
              | some k =>
                  cases h
                  exact .OrdFst (ih ha)
      | Asterisk a =>
          simp only [topdown_matchN] at h
          cases ha : topdown_matchN env n a s i with
          | none => simp only [ha] at h; cases h
          | some r1 =>
              simp only [ha] at h
              cases r1 with
              | none =>
                  cases h
                  exact .AsteriskDone (ih ha)
              | some k =>
                  cases hrest : topdown_matchN env n (.Asterisk a) s (i + k) with
                  | none => simp only [hrest] at h; cases h
                  | some r2 =>
                      simp only [hrest] at h
                      cases r2 with
                      | none => cases h
                      | some t =>
                          cases h
                          exact .AsteriskStep (ih ha) (ih hrest)
      | Plus a =>
          simp only [topdown_matchN] at h
          cases ha : topdown_matchN env n a s i with
          | none => simp only [ha] at h; cases h
          | some r1 =>
              simp only [ha] at h
              cases r1 with
              | none =>
                  cases h
                  exact .PlusFail (ih ha)
              | some k =>
                  cases hrest : topdown_matchN env n (.Asterisk a) s (i + k) with
                  | none => simp only [hrest] at h; cases h
                  | some r2 =>
                      simp only [hrest] at h
                      cases r2 with
                      | none => cases h
                      | some t =>
                          cases h
                          exact .PlusSucc (ih ha) (ih hrest)
      | Call m =>
          simp only [topdown_matchN] at h
          exact .Call (ih h)

/-- Inversion for `Seq`: a run of `Seq a b` either stopped at a failure
of `a` (line 100 of the source) or ran `a` and then `b` from the
advanced offset, adding the consumed counts (line 98). -/
theorem seq_inv {env : Nat → Grammar} {a b : Grammar} {s : List Char}
    {i : Nat} {r : Option Nat} (h : TopdownMatch env (.Seq a b) s i r) :
    (r = none ∧ TopdownMatch env a s i none) ∨
    (∃ k r2, TopdownMatch env a s i (some k) ∧
      TopdownMatch env b s (i + k) r2 ∧ r = r2.map (fun m => k + m)) := by
  cases h with
  | SeqFail h1 => exact Or.inl ⟨rfl, h1⟩
  | SeqCont h1 h2 => exact Or.inr ⟨_, _, h1, h2, rfl⟩

/-- Inversion for `CharRange`: its one return path computes
`charRangeRes`. -/
theorem charRange_inv {env : Nat → Grammar} {lo hi : Ch} {s : List Char}
    {i : Nat} {r : Option Nat}
    (h : TopdownMatch env (.CharRange lo hi) s i r) :
    r = charRangeRes lo hi s i := by
  cases h; rfl

/-- A successful `CharRange` match consumes at least one unit (it
always consumes exactly one). -/
theorem charRange_success_pos {env : Nat → Grammar} {lo hi : Ch}
    {s : List Char} {j k : Nat}
    (h : TopdownMatch env (.CharRange lo hi) s j (some k)) : 1 ≤ k := by
  have hinv := charRange_inv h
  have := (charRangeRes_eq_some hinv.symm).2
  omega

/-- Every successful match stays within the input: `i + k ≤ length s`,
or else the success consumed nothing (`k = 0`, the `Start`/`End` and
zero-iteration cases, which alone can report success beyond the end). -/
theorem consumed_le_length {env : Nat → Grammar} {g : Grammar}
    {s : List Char} {i : Nat} {r : Option Nat}
    (h : TopdownMatch env g s i r) :
    ∀ k, r = some k → i + k ≤ s.length ∨ k = 0 := by
  induction h with
  | Start =>
      intro k hk
      split at hk <;> cases hk
      exact Or.inr rfl
  | End =>
      intro k hk
      split at hk <;> cases hk
      exact Or.inr rfl
  | Char =>
      intro k hk
      obtain ⟨hlt, rfl⟩ := charRes_eq_some hk
      exact Or.inl (by omega)
  | CharRange =>
      intro k hk
      obtain ⟨hlt, rfl⟩ := charRangeRes_eq_some hk
      exact Or.inl (by omega)
  | SeqFail h1 ih1 => intro k hk; cases hk
  | SeqCont h1 h2 ih1 ih2 =>
      intro k' hk
      obtain ⟨m, hm, hfm⟩ := Option.map_eq_some'.mp hk
      have hA := ih1 _ rfl
      have hB := ih2 m hm
      omega
  | OrdFst h1 ih1 => exact ih1
  | OrdSnd h1 h2 ih1 ih2 => exact ih2
  | AsteriskDone h1 ih1 =>
      intro k hk
      cases hk
      exact Or.inr rfl
  | AsteriskStep h1 h2 ih1 ih2 =>
      intro k' hk
      cases hk
      have hA := ih1 _ rfl
      have hB := ih2 _ rfl
      omega
  | PlusFail h1 ih1 => intro k hk; cases hk
  | PlusSucc h1 h2 ih1 ih2 =>
      intro k' hk
      cases hk
      have hA := ih1 _ rfl
      have hB := ih2 _ rfl
      omega
  | Call h1 ih1 => exact ih1

/-- The accumulation loop is maximal: when `Asterisk a` returns a total
`k`, the sub-grammar fails at the offset the loop stopped at, `i + k`
(the `while` condition of line 81 is the only exit). -/
theorem asterisk_maximal {env : Nat → Grammar} {g : Grammar}
    {s : List Char} {i : Nat} {r : Option Nat}
    (h : TopdownMatch env g s i r) :
    ∀ a k, g = .Asterisk a → r = some k →
      TopdownMatch env a s (i + k) none := by
  induction h with
  | Start => intro a k hg hr; cases hg
  | End => intro a k hg hr; cases hg
  | Char => intro a k hg hr; cases hg
  | CharRange => intro a k hg hr; cases hg
  | SeqFail h1 ih1 => intro a k hg hr; cases hg
  | SeqCont h1 h2 ih1 ih2 => intro a k hg hr; cases hg
  | OrdFst h1 ih1 => intro a k hg hr; cases hg
  | OrdSnd h1 h2 ih1 ih2 => intro a k hg hr; cases hg
  | PlusFail h1 ih1 => intro a k hg hr; cases hg
  | PlusSucc h1 h2 ih1 ih2 => intro a k hg hr; cases hg
  | Call h1 ih1 => intro a k hg hr; cases hg
  | AsteriskDone h1 ih1 =>
      intro a k hg hr
      cases hg
      cases hr
      simpa using h1
  | AsteriskStep h1 h2 ih1 ih2 =>
      intro a k hg hr
      cases hg
      cases hr
      have := ih2 _ _ rfl rfl
      rwa [Nat.add_assoc] at this

/-- Termination of the accumulation loop: when the sub-grammar always
returns and every success of it consumes at least one unit, `Asterisk`
returns at every offset (the loop offset strictly advances until the
first failure). -/
theorem asterisk_total {env : Nat → Grammar} {a : Grammar} {s : List Char}
    (htotal : ∀ j, ∃ r, TopdownMatch env a s j r)
    (hpos : ∀ j k, TopdownMatch env a s j (some k) → 1 ≤ k) :
    ∀ i, ∃ t, TopdownMatch env (.Asterisk a) s i (some t) := by
  have key : ∀ m i, s.length ≤ i + m →
      ∃ t, TopdownMatch env (.Asterisk a) s i (some t) := by
    intro m
    induction m with
    | zero =>
        intro i hi
        obtain ⟨r, hr⟩ := htotal i
        cases r with
        | none => exact ⟨0, .AsteriskDone hr⟩
        | some k =>
            have hk := hpos i k hr
            have hb := consumed_le_length hr k rfl
            exact absurd hb (by omega)
    | succ m ihm =>
        intro i hi
        obtain ⟨r, hr⟩ := htotal i
        cases r with
        | none => exact ⟨0, .AsteriskDone hr⟩
        | some k =>
            have hk := hpos i k hr
            obtain ⟨t, ht⟩ := ihm (i + k) (by omega)
            exact ⟨k + t, .AsteriskStep hr ht⟩
  intro i
  exact key s.length i (by omega)

/-- Claim C1: matching the anchored top-level rule
`Toplevel = Seq(Start, Additive, End)` of the arithmetic grammar
against `"(1+1)+1*(5+5)"` at offset 0 succeeds and consumes exactly 13
units, the full input length. -/
theorem C1_toplevel_full_match :
    TopdownMatch demoEnv Toplevel demoInput 0 (some 13) ∧
      demoInput.length = 13 :=
  ⟨topdown_matchN_sound 64 (by rfl), by rfl⟩

/-- Claim C2 (evaluation at the failing input): at an offset at or past
the end of the input the model's `Char` and `CharRange` produce
`NoMatch`, the behavior the spec mandates (§4.1, §7, §9). The source
itself does not guarantee this: `Char::topdown_match` (line 40) and
`CharRange::topdown_match` (line 50) evaluate `context[index]` with no
bounds check, an out-of-bounds read of the `string_view` — undefined
behavior — whenever `index ≥ context.size()`, e.g. for `Char<'a'>` on
the empty input at offset 0. -/
theorem C2_out_of_bounds_eval :
    TopdownMatch demoEnv (.Char 'a') [] 0 none ∧
      TopdownMatch demoEnv (.CharRange '0' '9') [] 0 none ∧
      ([] : List Char).length ≤ 0 :=
  ⟨topdown_matchN_sound 5 (by rfl), topdown_matchN_sound 5 (by rfl),
    Nat.le_refl 0⟩

/-- Claim C3: whenever matching any grammar node at offset `i` succeeds
with consumed length `k`, then `i + k ≤ length s` — except for
zero-consumption successes (`k = 0`: the `Start`/`End` anchors and
zero-iteration repetitions, which alone can succeed at an offset past
the boundary). -/
theorem C3_success_within_bounds (env : Nat → Grammar) (g : Grammar)
    (s : List Char) (i k : Nat)
    (h : TopdownMatch env g s i (some k)) :
    i + k ≤ s.length ∨ k = 0 :=
  consumed_le_length h k rfl

theorem C3_success_within_bounds_witness :
    0 + 1 ≤ [('a' : Char)].length ∨ 1 = 0 :=
  C3_success_within_bounds demoEnv (.Char 'a') ['a'] 0 1
    (topdown_matchN_sound 5 (by rfl))

/-- Claim C4: `ZeroOrMore(sub)` (`Asterisk`) succeeds for every
sub-grammar, input and offset — every outcome it returns is a success
(possibly consuming 0); it never returns `NoMatch` (line 85 of the
source always returns a value). -/
theorem C4_asterisk_never_fails (env : Nat → Grammar) (a : Grammar)
    (s : List Char) (i : Nat) (r : Option Nat)
    (h : TopdownMatch env (.Asterisk a) s i r) : ∃ k, r = some k := by
  cases h with
  | AsteriskDone h1 => exact ⟨0, rfl⟩
  | AsteriskStep h1 h2 => exact ⟨_, rfl⟩

theorem C4_asterisk_never_fails_witness :
    ∃ k, (some 0 : Option Nat) = some k :=
  C4_asterisk_never_fails demoEnv Digit ['a'] 0 (some 0)
    (topdown_matchN_sound 5 (by rfl))

/-- Claim C5: `OneOrMore(sub)` (`Plus`) fails if and only if `sub`
fails at the starting offset; and when `sub` succeeds there consuming
`k`, any outcome of `Plus` is a success accumulating `k` plus the total
of the remaining loop iterations (the `Asterisk` loop from the advanced
offset). -/
theorem C5_plus_fails_iff_sub_fails (env : Nat → Grammar) (a : Grammar)
    (s : List Char) (i : Nat) :
    (TopdownMatch env (.Plus a) s i none ↔ TopdownMatch env a s i none) ∧
    (∀ r k, TopdownMatch env (.Plus a) s i r →
      TopdownMatch env a s i (some k) →
      ∃ t, r = some (k + t) ∧
        TopdownMatch env (.Asterisk a) s (i + k) (some t)) := by
  constructor
  · constructor
    · intro h
      cases h with
      | PlusFail h1 => exact h1
    · exact .PlusFail
  · intro r k hp ha
    cases hp with
    | PlusFail h1 => cases topdownMatch_det h1 ha
    | PlusSucc h1 h2 =>
        cases topdownMatch_det ha h1
        exact ⟨_, rfl, h2⟩

/-- Claim C6: ordered choice commits to the first alternative: whenever
`a` succeeds, `Ord(a, b)` returns `a`'s outcome unchanged (and no other
outcome), regardless of `b`; and `Ord(a, b)` fails exactly when both
`a` and `b` fail. -/
theorem C6_ord_first_match_wins (env : Nat → Grammar) (a b : Grammar)
    (s : List Char) (i : Nat) :
    (∀ k, TopdownMatch env a s i (some k) →
      TopdownMatch env (.Ord a b) s i (some k)) ∧
    (∀ k r, TopdownMatch env a s i (some k) →
      TopdownMatch env (.Ord a b) s i r → r = some k) ∧
    (TopdownMatch env (.Ord a b) s i none →
      TopdownMatch env a s i none ∧ TopdownMatch env b s i none) ∧
    (TopdownMatch env a s i none → TopdownMatch env b s i none →
      TopdownMatch env (.Ord a b) s i none) := by
  refine ⟨fun k h => .OrdFst h, fun k r ha ho => ?_, fun ho => ?_,
    fun ha hb => .OrdSnd ha hb⟩
  · cases ho with
    | OrdFst h1 => exact topdownMatch_det h1 ha
    | OrdSnd h1 h2 => cases topdownMatch_det h1 ha
  · cases ho with
    | OrdSnd h1 h2 => exact ⟨h1, h2⟩

/-- Claim C7: sequencing is associative: `Seq(Seq(a, b), c)` and
`Seq(a, Seq(b, c))` produce identical outcomes (same success/failure,
and on success the same total consumed length) on every input and
offset. -/
theorem C7_seq_assoc (env : Nat → Grammar) (a b c : Grammar)
    (s : List Char) (i : Nat) (r : Option Nat) :
    TopdownMatch env (.Seq (.Seq a b) c) s i r ↔
      TopdownMatch env (.Seq a (.Seq b c)) s i r := by
  constructor
  · intro h
    rcases seq_inv h with ⟨rfl, h1⟩ | ⟨k12, r3, h1, h3, rfl⟩
    · rcases seq_inv h1 with ⟨-, h2⟩ | ⟨k1, r2, ha, hb, heq⟩
      · exact .SeqFail h2
      · have hr2 : r2 = none := Option.map_eq_none'.mp heq.symm
        subst hr2
        exact .SeqCont ha (.SeqFail hb)
    · rcases seq_inv h1 with ⟨heq, -⟩ | ⟨k1, r2, ha, hb, heq⟩
      · cases heq
      · cases r2 with
        | none => simp at heq
        | some k2 =>
            simp only [Option.map_some'] at heq
            cases heq
            rw [← Nat.add_assoc] at h3
            have final := TopdownMatch.SeqCont ha (TopdownMatch.SeqCont hb h3)
            have hmap : ((r3.map fun m => k2 + m).map fun m => k1 + m) =
                r3.map (fun m => k1 + k2 + m) := by
              cases r3 <;> simp [Nat.add_assoc]
            rwa [hmap] at final
  · intro h
    rcases seq_inv h with ⟨rfl, h1⟩ | ⟨k1, r23, ha, h23, rfl⟩
    · exact .SeqFail (.SeqFail h1)
    · rcases seq_inv h23 with ⟨rfl, hb⟩ | ⟨k2, r3, hb, hc, rfl⟩
      · have h12 : TopdownMatch env (.Seq a b) s i none :=
          .SeqCont ha hb
        show TopdownMatch env (.Seq (.Seq a b) c) s i none
        exact .SeqFail h12
      · have h12 : TopdownMatch env (.Seq a b) s i (some (k1 + k2)) :=
          .SeqCont ha hb
        rw [Nat.add_assoc] at hc
        have final := TopdownMatch.SeqCont h12 hc
        have hmap : r3.map (fun m => k1 + k2 + m) =
            ((r3.map fun m => k2 + m).map fun m => k1 + m) := by
          cases r3 <;> simp [Nat.add_assoc]
        rwa [hmap] at final

/-- Claim C8: when every successful match of the sub-grammar consumes
at least one unit (and the sub-grammar always returns), the repetition
loops of `OneOrMore` and `ZeroOrMore` terminate: both return at every
offset, the loop offset strictly advancing until the first failure. -/
theorem C8_repetition_terminates (env : Nat → Grammar) (a : Grammar)
    (s : List Char)
    (htotal : ∀ j, ∃ r, TopdownMatch env a s j r)
    (hpos : ∀ j k, TopdownMatch env a s j (some k) → 1 ≤ k)
    (i : Nat) :
    (∃ r, TopdownMatch env (.Asterisk a) s i r) ∧
    (∃ r, TopdownMatch env (.Plus a) s i r) := by
  obtain ⟨t, ht⟩ := asterisk_total htotal hpos i
  refine ⟨⟨some t, ht⟩, ?_⟩
  obtain ⟨r0, hr0⟩ := htotal i
  cases r0 with
  | none => exact ⟨none, .PlusFail hr0⟩
  | some k =>
      obtain ⟨t2, ht2⟩ := asterisk_total htotal hpos (i + k)
      exact ⟨some (k + t2), .PlusSucc hr0 ht2⟩

theorem C8_repetition_terminates_witness :
    (∃ r, TopdownMatch demoEnv (.Asterisk Digit) ['7'] 0 r) ∧
    (∃ r, TopdownMatch demoEnv (.Plus Digit) ['7'] 0 r) :=
  C8_repetition_terminates demoEnv Digit ['7']
    (fun j => ⟨charRangeRes '0' '9' ['7'] j, TopdownMatch.CharRange⟩)
    (fun _ _ h => charRange_success_pos h) 0

/-- Claim C9: `OneOrMore(sub)` is extensionally equal to
`Seq(sub, ZeroOrMore(sub))`: both fail exactly when `sub` fails at the
starting offset, and on success both consume `sub`'s first consumed
length plus the total of the `ZeroOrMore` loop from the advanced
offset. -/
theorem C9_plus_is_seq_asterisk (env : Nat → Grammar) (a : Grammar)
    (s : List Char) (i : Nat) (r : Option Nat) :
    TopdownMatch env (.Plus a) s i r ↔
      TopdownMatch env (.Seq a (.Asterisk a)) s i r := by
  constructor
  · intro h
    cases h with
    | PlusFail h1 => exact .SeqFail h1
    | PlusSucc h1 h2 => exact .SeqCont h1 h2
  · intro h
    rcases seq_inv h with ⟨rfl, h1⟩ | ⟨k, r2, h1, h2, rfl⟩
    · exact .PlusFail h1
    · obtain ⟨t, rfl⟩ := asterisk_result_some h2
      exact .PlusSucc h1 h2

/-- Claim C10: repetition is greedy and maximal: when `OneOrMore(sub)`
or `ZeroOrMore(sub)` succeeds at offset `i` with consumed total `k`,
the sub-grammar fails at offset `i + k` — the loop stops only at the
first failure of the sub-grammar, never earlier. -/
theorem C10_repetition_greedy (env : Nat → Grammar) (a : Grammar)
    (s : List Char) (i k : Nat) :
    (TopdownMatch env (.Asterisk a) s i (some k) →
      TopdownMatch env a s (i + k) none) ∧
    (TopdownMatch env (.Plus a) s i (some k) →
      TopdownMatch env a s (i + k) none) := by
  constructor
  · intro h
    exact asterisk_maximal h a k rfl rfl
  · intro h
    cases h with
    | PlusSucc h1 h2 =>
        have := asterisk_maximal h2 a _ rfl rfl
        rwa [Nat.add_assoc] at this

end BidiParser
